import Mathlib

set_option maxHeartbeats 1000000

/-!
Shallow embedding of the iterative analysis orchestration engine of
`apps/mcp_server/src/agent/data_agent/analysis_runner.py` (class
`AnalysisRunner`) and of the search adapter
`apps/mcp_server/src/agent/data_agent/exa_search.py` (class `ExaSearcher`).

External services (the Anthropic completion endpoint, the e2b sandbox and the
Exa search endpoint) are modelled as oracles collected in `QSelf.Env`: the
completion service is a function of the full transcript (the code passes the
entire `messages` list on every request), and each adapter call is a function
of the call index and its argument, so that stateful adapter behaviour and
call counting are both expressible.
-/

namespace QSelf

/-- Error object attached to a sandbox execution (`execution.error`). -/
structure E2BError where
  name : String
  value : String
deriving Repr, DecidableEq

/-- One entry of `execution.results` from the e2b sandbox: an optional png
payload and an optional text payload. -/
structure E2BResultItem where
  png : Option String
  text : Option String
deriving Repr, DecidableEq

/-- The sandbox execution object consumed by `execute_code_iteration`:
`error`, `results` and `logs.stdout`. -/
structure E2BExecution where
  error : Option E2BError
  results : List E2BResultItem
  logsStdout : List String
deriving Repr, DecidableEq

/-- Outcome of one `sandbox.run_code` call: either the call raises, or it
returns an execution object. -/
inductive SandboxCall where
  | raises (msg : String)
  | returns (ex : E2BExecution)
deriving Repr, DecidableEq

/-- Python truthiness of an optional string (`tool_input.get(k)` followed by
`if v:`): present and non-empty. -/
def optStrTruthy : Option String → Bool
  | some s => s != ""
  | none => false

/-- One chart dictionary (`title`, `base64`, `alt`). -/
structure Chart where
  title : String
  base64 : String
  alt : String
deriving Repr, DecidableEq

/-- One step of the chart-collection loop in `execute_code_iteration`: for a
truthy `result.png`, append a chart whose title and alt text are numbered by
the length of the per-execution chart list so far. -/
def chartStep (charts : List Chart) (r : E2BResultItem) : List Chart :=
  if optStrTruthy r.png then
    charts ++ [{ title := "Chart " ++ toString (charts.length + 1),
                 base64 := r.png.getD "",
                 alt := "Analysis chart " ++ toString (charts.length + 1) }]
  else charts

/-- Chart collection of `execute_code_iteration` over `execution.results`. -/
def collectCharts (results : List E2BResultItem) : List Chart :=
  results.foldl chartStep []

/-- Stdout assembly of `execute_code_iteration`: the newline-join of
`logs.stdout` when non-empty, then each truthy `result.text` appended after a
newline. -/
def collectStdout (ex : E2BExecution) : String :=
  let base := if ex.logsStdout ≠ [] then String.intercalate "\n" ex.logsStdout else ""
  ex.results.foldl (fun acc r => if optStrTruthy r.text then acc ++ "\n" ++ r.text.getD "" else acc) base

/-- Result dictionary of `execute_code_iteration`. -/
structure ExecResult where
  success : Bool
  message : String
  charts : List Chart
  stdout : Option String
deriving Repr, DecidableEq

/-- `AnalysisRunner.execute_code_iteration`, with the outcome of the
`sandbox.run_code` call supplied explicitly. -/
def execute_code_iteration (call : SandboxCall) : ExecResult :=
  match call with
  | .raises e =>
      { success := false, message := "Execution error: " ++ e, charts := [], stdout := none }
  | .returns ex =>
      match ex.error with
      | some err =>
          { success := false, message := "Error: " ++ err.name ++ " - " ++ err.value,
            charts := [], stdout := none }
      | none =>
          let charts := collectCharts ex.results
          let outputText := collectStdout ex
          let successMsg :=
            if charts ≠ [] then
              "Code executed successfully" ++ " - Generated " ++ toString charts.length
                ++ " chart(s)"
            else "Code executed successfully"
          { success := true, message := successMsg, charts := charts,
            stdout := if outputText.trim ≠ "" then some outputText.trim else none }

/-- Outcome of the Exa chat-completions network call inside
`ExaSearcher.search_health_insights`: either the call raises, or it returns
the optional message content (`none` models an empty `choices`/`message`). -/
inductive ExaCall where
  | raises (msg : String)
  | returns (content : Option String)
deriving Repr, DecidableEq

/-- The enhanced query built by `ExaSearcher.search_health_insights` when a
truthy context is supplied. -/
def enhanceQuery (query context : String) : String :=
  if context ≠ "" then
    "Given this context: " ++ context ++ ", find insights about: " ++ query
  else query

/-- `ExaSearcher.search_health_insights`, with the underlying network call
supplied as a function of the enhanced query. The `try` block catches the
call's exception and renders it as a `Search error:` text. -/
def search_health_insights (query context : String) (call : String → ExaCall) : String :=
  match call (enhanceQuery query context) with
  | .raises e => "Search error: " ++ e
  | .returns (some content) => content
  | .returns none => "No search results found for: " ++ query

/-- Structured argument payload of a tool call (exactly the keys the runner
reads with `tool_input.get`). -/
structure ToolInput where
  code : Option String
  query : Option String
  context : Option String
  executive_summary : Option String
  focus_analysis_findings : Option String
deriving Repr, DecidableEq

/-- Tool input with every key absent. -/
def noInput : ToolInput := ⟨none, none, none, none, none⟩

/-- One content block of a model completion (`text` or `tool_use`). -/
inductive ContentBlock where
  | text (t : String)
  | toolUse (id name : String) (input : ToolInput)
deriving Repr, DecidableEq

/-- A model completion: an ordered list of content blocks. -/
structure Completion where
  content : List ContentBlock
deriving Repr, DecidableEq

/-- One content block of a transcript message. -/
inductive MsgBlock where
  | text (t : String)
  | toolUse (id name : String) (input : ToolInput)
  | toolResult (tool_use_id content : String)
deriving Repr, DecidableEq

/-- A transcript message: role and ordered content blocks. -/
structure Message where
  role : String
  content : List MsgBlock
deriving Repr, DecidableEq

/-- A tool call extracted from a completion's `tool_use` blocks. -/
structure ToolCall where
  id : String
  name : String
  input : ToolInput
deriving Repr, DecidableEq

/-- One tool-result entry collected during an iteration. -/
structure ToolResult where
  tool_call_id : String
  content : String
deriving Repr, DecidableEq

/-- The two analysis fields stored by the `finalize_analysis` branch. -/
structure Analysis where
  executive_summary : String
  focus_analysis_findings : String
deriving Repr, DecidableEq

/-- Session result of `generate_analysis_iteratively`: the Python `None`
(failure sentinel) or the charts-and-analysis dictionary. -/
inductive SessionResult where
  | failed
  | success (charts : List Chart) (analysis : Analysis)
deriving Repr, DecidableEq

/-- External environment: the completion service as a function of the full
transcript, the sandbox `run_code` call indexed by the number of previous
code-execution calls, and the Exa call indexed by the number of previous
search calls. -/
structure Env where
  completions : List Message → Completion
  runCode : Nat → String → SandboxCall
  exa : Nat → String → ExaCall

/-- Result of handling one tool call inside the dispatch loop: either
`finalize_analysis` was hit (carrying its analysis fields), or the loop
continues with the produced tool results, the updated chart list, the updated
adapter-call counters, and the ghost ledger entry (the chart list of a
successful code execution). -/
inductive StepOut where
  | fin (analysis : Analysis)
  | cont (trs : List ToolResult) (charts : List Chart) (cc ec : Nat) (entry : List (List Chart))
deriving Repr, DecidableEq

/-- Handling of a single tool call, mirroring the
`if tool_name == ... / elif ... / elif ...` chain inside
`generate_analysis_iteratively`. A `run_python_code` call without truthy code
and a call with an unrecognized name fall through without appending any tool
result. -/
def stepCall (env : Env) (call : ToolCall) (charts : List Chart) (cc ec : Nat) : StepOut :=
  if call.name = "run_python_code" then
    if optStrTruthy call.input.code then
      let er := execute_code_iteration (env.runCode cc (call.input.code.getD ""))
      let charts1 :=
        if er.success then (if er.charts ≠ [] then charts ++ er.charts else charts) else charts
      let resultContent :=
        er.message ++
          (match er.stdout with
           | some s => "\n\nCode Output:\n" ++ s
           | none => "")
      StepOut.cont [{ tool_call_id := call.id, content := resultContent }] charts1 (cc + 1) ec
        (if er.success then [er.charts] else [])
    else
      StepOut.cont [] charts cc ec []
  else if call.name = "search_health_insights" then
    if optStrTruthy call.input.query then
      let searchResult :=
        search_health_insights (call.input.query.getD "") (call.input.context.getD "")
          (env.exa ec)
      StepOut.cont
        [{ tool_call_id := call.id,
           content := "Health Insights Search Results:\n\n" ++ searchResult }]
        charts cc (ec + 1) []
    else
      StepOut.cont
        [{ tool_call_id := call.id,
           content := "Error: Query parameter is required for health insights search" }]
        charts cc ec []
  else if call.name = "finalize_analysis" then
    StepOut.fin
      { executive_summary := call.input.executive_summary.getD "Analysis completed",
        focus_analysis_findings := call.input.focus_analysis_findings.getD "" }
  else
    StepOut.cont [] charts cc ec []

/-- Result of dispatching one iteration's batch of tool calls. -/
inductive BatchResult where
  | finalized (charts : List Chart) (analysis : Analysis) (cc ec : Nat) (ledger : List (List Chart))
  | done (trs : List ToolResult) (charts : List Chart) (cc ec : Nat) (ledger : List (List Chart))
deriving Repr, DecidableEq

/-- Sequential dispatch of a batch of tool calls, mirroring the
`for tool_call in tool_calls` loop: a `finalize_analysis` call returns
immediately with the charts accumulated up to that point
(`all_charts if all_charts else []`) and the analysis fields, skipping every
later call in the batch; other calls accumulate tool results, charts and
adapter-call counts in order. -/
def dispatchBatch (env : Env) : List ToolCall → List Chart → Nat → Nat → BatchResult
  | [], charts, cc, ec => .done [] charts cc ec []
  | call :: rest, charts, cc, ec =>
    match stepCall env call charts cc ec with
    | .fin a => .finalized (if charts ≠ [] then charts else []) a cc ec []
    | .cont newTrs charts1 cc1 ec1 entry =>
      match dispatchBatch env rest charts1 cc1 ec1 with
      | .finalized c a cc2 ec2 led => .finalized c a cc2 ec2 (entry ++ led)
      | .done trs c cc2 ec2 led => .done (newTrs ++ trs) c cc2 ec2 (entry ++ led)

/-- Tool results carried by a batch result (none on finalize, which returns
before the results message is assembled). -/
def BatchResult.toolResults : BatchResult → List ToolResult
  | .finalized _ _ _ _ _ => []
  | .done trs _ _ _ _ => trs

/-- Chart list carried by a batch result. -/
def BatchResult.chartsOf : BatchResult → List Chart
  | .finalized c _ _ _ _ => c
  | .done _ c _ _ _ => c

/-- Ghost ledger carried by a batch result. -/
def BatchResult.ledgerOf : BatchResult → List (List Chart)
  | .finalized _ _ _ _ led => led
  | .done _ _ _ _ led => led

/-- Whether the batch completed without hitting `finalize_analysis`. -/
def BatchResult.isDone : BatchResult → Bool
  | .finalized _ _ _ _ _ => false
  | .done _ _ _ _ _ => true

/-- Projection of a completion content block to a tool call. -/
def cbToolUse : ContentBlock → Option ToolCall
  | .toolUse id name input => some { id := id, name := name, input := input }
  | .text _ => none

/-- Projection of a completion content block to its text. -/
def cbText : ContentBlock → Option String
  | .text t => some t
  | .toolUse _ _ _ => none

/-- The `tool_use` blocks of a completion, in order. -/
def toolCallsOf (r : Completion) : List ToolCall :=
  r.content.filterMap cbToolUse

/-- The text blocks of a completion, in order. -/
def textsOf (r : Completion) : List String :=
  r.content.filterMap cbText

/-- Projection of a transcript message block to a tool call. -/
def msgToolUse : MsgBlock → Option ToolCall
  | .toolUse id name input => some { id := id, name := name, input := input }
  | _ => none

/-- Projection of a transcript message block to its text. -/
def msgText : MsgBlock → Option String
  | .text t => some t
  | _ => none

/-- Content of the assistant message the runner builds: one merged text block
(the newline-join of all text blocks) appended first when any text is present,
then the `tool_use` blocks in their completion order. -/
def assistantContent (r : Completion) : List MsgBlock :=
  (if textsOf r ≠ [] then [MsgBlock.text (String.intercalate "\n" (textsOf r))] else [])
    ++ (toolCallsOf r).map fun c => MsgBlock.toolUse c.id c.name c.input

/-- The user message carrying an iteration's tool results. -/
def toolResultsMessage (trs : List ToolResult) : Message :=
  { role := "user", content := trs.map fun tr => MsgBlock.toolResult tr.tool_call_id tr.content }

/-- Analysis fields synthesized when the loop ends without
`finalize_analysis` but with charts. -/
def exhaustedAnalysis : Analysis :=
  { executive_summary :=
      "Analysis completed but reached maximum iterations without finalization. Charts were generated successfully.",
    focus_analysis_findings := "" }

/-- Observable outcome of one session run: the returned session result, the
number of iterations executed (completions requested), the ghost ledger (one
entry per successful code execution: the charts it produced, in execution
order) and the final transcript. -/
structure RunOutcome where
  result : SessionResult
  iterations : Nat
  ledger : List (List Chart)
  messages : List Message
deriving Repr, DecidableEq

/-- Transcript growth of one iteration that did not finalize: append the
assistant message when it has content, then the tool-results user message
when any tool results were collected. -/
def appendedMessages (messages : List Message) (response : Completion)
    (trs : List ToolResult) : List Message :=
  (messages ++
      (if assistantContent response ≠ []
       then [({ role := "assistant", content := assistantContent response } : Message)]
       else []))
    ++ (if trs ≠ [] then [toolResultsMessage trs] else [])

/-- The `while iteration_count < max_iterations` loop of
`generate_analysis_iteratively`; `fuel` is the number of remaining
iterations (`max_iterations - iteration_count`), `iters` the number already
executed. Each pass requests a completion on the full current transcript,
dispatches the batch, appends the assistant message (when non-empty) and the
tool-results message (when non-empty), then either stops (finalize, no tools
used, or fuel exhausted) or recurses. -/
def loop (env : Env) :
    Nat → List Message → List Chart → Nat → Nat → Nat → List (List Chart) → RunOutcome
  | 0, messages, charts, _, _, iters, led =>
      { result := if charts ≠ [] then .success charts exhaustedAnalysis else .failed,
        iterations := iters, ledger := led, messages := messages }
  | fuel + 1, messages, charts, cc, ec, iters, led =>
      let response := env.completions messages
      let tcs := toolCallsOf response
      match dispatchBatch env tcs charts cc ec with
      | .finalized c a _ _ bled =>
          { result := .success c a, iterations := iters + 1, ledger := led ++ bled,
            messages := messages }
      | .done trs charts1 cc1 ec1 bled =>
          let messages2 := appendedMessages messages response trs
          if tcs = [] then
            { result := if charts1 ≠ [] then .success charts1 exhaustedAnalysis else .failed,
              iterations := iters + 1, ledger := led ++ bled, messages := messages2 }
          else
            loop env fuel messages2 charts1 cc1 ec1 (iters + 1) (led ++ bled)

/-- Iteration cap (`max_iterations = 20`). -/
def max_iterations : Nat := 20

/-- The seed transcript message (`{"role": "user", "content": analysis_prompt}`). -/
def seedMessage (analysis_prompt : String) : Message :=
  { role := "user", content := [MsgBlock.text analysis_prompt] }

/-- `AnalysisRunner.generate_analysis_iteratively`: seed the transcript and
run the bounded loop. -/
def generate_analysis_iteratively (env : Env) (analysis_prompt : String) : RunOutcome :=
  loop env max_iterations [seedMessage analysis_prompt] [] 0 0 0 []

/-- The list of titles `Chart 1 … Chart n`. -/
def chartTitles : Nat → List String
  | 0 => []
  | n + 1 => chartTitles n ++ ["Chart " ++ toString (n + 1)]

/-- Whether a tool call is one the dispatcher answers with a tool result:
`run_python_code` with truthy code, or any `search_health_insights` call. -/
def handled (c : ToolCall) : Bool :=
  (c.name == "run_python_code" && optStrTruthy c.input.code) || c.name == "search_health_insights"

/-- Environment whose adapters are never exercised and whose model issues no
blocks at all. -/
def trivialEnv : Env :=
  { completions := fun _ => { content := [] },
    runCode := fun _ _ => SandboxCall.raises "unreachable",
    exa := fun _ _ => ExaCall.raises "unreachable" }

/-- Tool input carrying only a `query`. -/
def queryInput : ToolInput := ⟨none, some "q", none, none, none⟩

/-- Tool input carrying only `code`. -/
def codeInput : ToolInput := ⟨some "print(1)", none, none, none, none⟩

/-- Tool input carrying only an `executive_summary` of `"S"`. -/
def summaryInput : ToolInput := ⟨none, none, none, some "S", none⟩

/-- Tool input carrying only an `executive_summary` of `"X"`. -/
def summaryXInput : ToolInput := ⟨none, none, none, some "X", none⟩

/-- Environment for the finalize-short-circuit witness: the model issues a
search, then a finalize, then a code call in one batch. -/
def envFin : Env :=
  { completions := fun _ =>
      { content :=
          [ContentBlock.toolUse "a" "search_health_insights" queryInput,
           ContentBlock.toolUse "b" "finalize_analysis" summaryInput,
           ContentBlock.toolUse "c" "run_python_code" codeInput] },
    runCode := fun _ _ => SandboxCall.raises "never",
    exa := fun _ _ => ExaCall.returns (some "R") }

/-- Environment whose model always issues one unrecognized tool call. -/
def envBogus : Env :=
  { completions := fun _ => { content := [ContentBlock.toolUse "t" "bogus_tool" noInput] },
    runCode := fun _ _ => SandboxCall.raises "never",
    exa := fun _ _ => ExaCall.raises "never" }

/-- A successful sandbox execution producing exactly one png result. -/
def onePngExecution : E2BExecution := { error := none, results := [⟨some "PNG", none⟩], logsStdout := [] }

/-- Environment for the artifact-accumulation witness: the model issues one
code call (producing one chart) and then a finalize in the same batch. -/
def envOneChart : Env :=
  { completions := fun _ =>
      { content :=
          [ContentBlock.toolUse "a" "run_python_code" codeInput,
           ContentBlock.toolUse "b" "finalize_analysis" summaryInput] },
    runCode := fun _ _ => SandboxCall.returns onePngExecution,
    exa := fun _ _ => ExaCall.raises "never" }

/-- The chart produced by `onePngExecution`. -/
def chartOne : Chart := { title := "Chart 1", base64 := "PNG", alt := "Analysis chart 1" }

/-- Environment whose model immediately finalizes with summary `"X"`. -/
def envFinalizeX : Env :=
  { completions := fun _ =>
      { content := [ContentBlock.toolUse "f" "finalize_analysis" summaryXInput] },
    runCode := fun _ _ => SandboxCall.raises "never",
    exa := fun _ _ => ExaCall.raises "never" }

/-- Environment whose model answers with text only, never using a tool. -/
def envIdle : Env :=
  { completions := fun _ => { content := [ContentBlock.text "done"] },
    runCode := fun _ _ => SandboxCall.raises "never",
    exa := fun _ _ => ExaCall.raises "never" }

/-- Environment whose Exa adapter always raises `"boom"`. -/
def envSearchBoom : Env :=
  { completions := fun _ => { content := [] },
    runCode := fun _ _ => SandboxCall.raises "never",
    exa := fun _ _ => ExaCall.raises "boom" }

/-- Environment for the block-order counterexample: the first completion is a
`tool_use` block followed by a text block; afterwards the model goes silent. -/
def envOrder : Env :=
  { completions := fun ms =>
      if ms.length = 1 then
        { content := [ContentBlock.toolUse "t" "run_python_code" noInput, ContentBlock.text "T"] }
      else { content := [] },
    runCode := fun _ _ => SandboxCall.raises "never",
    exa := fun _ _ => ExaCall.raises "never" }

/-- Environment whose sandbox always renders exactly one png per execution. -/
def envPng : Env :=
  { completions := fun _ => { content := [] },
    runCode := fun _ _ => SandboxCall.returns { error := none, results := [⟨some "P", none⟩], logsStdout := [] },
    exa := fun _ _ => ExaCall.raises "never" }

/-- The charts snapshot returned by the finalize branch
(`all_charts if all_charts else []`) is the accumulator itself. -/
theorem ite_ne_nil_self (l : List Chart) : (if l ≠ [] then l else []) = l := by
  by_cases h : l = [] <;> simp [h]

/-- A tool call whose name is not `finalize_analysis` always continues the
batch; it yields exactly one tool result (carrying its id) when handled and
none otherwise, and extends the chart accumulator by exactly its ledger
entry. -/
theorem stepCall_cont_of_ne (env : Env) (c : ToolCall) (charts : List Chart) (cc ec : Nat)
    (h : c.name ≠ "finalize_analysis") :
    ∃ trs charts1 cc1 ec1 entry,
      stepCall env c charts cc ec = .cont trs charts1 cc1 ec1 entry ∧
      trs.map (fun tr => tr.tool_call_id) = (if handled c then [c.id] else []) ∧
      charts1 = charts ++ entry.flatten := by
  by_cases h1 : c.name = "run_python_code"
  · cases h2 : optStrTruthy c.input.code with
    | true =>
      simp only [stepCall, h1, h2, if_true, ite_true, reduceIte]
      refine ⟨_, _, _, _, _, rfl, by simp [handled, h1, h2], ?_⟩
      cases h3 : (execute_code_iteration (env.runCode cc (c.input.code.getD ""))).success with
      | true =>
        by_cases h4 : (execute_code_iteration (env.runCode cc (c.input.code.getD ""))).charts = [] <;>
          simp [h3, h4]
      | false => simp [h3]
    | false =>
      simp only [stepCall, h1, h2, if_true, ite_true, ite_false, Bool.false_eq_true, reduceIte]
      exact ⟨_, _, _, _, _, rfl, by simp [handled, h1, h2], by simp⟩
  · by_cases h5 : c.name = "search_health_insights"
    · cases h6 : optStrTruthy c.input.query with
      | true =>
        simp only [stepCall, h1, h5, h6, if_true, ite_true, ite_false, reduceIte]
        exact ⟨_, _, _, _, _, rfl, by simp [handled, h1, h5], by simp⟩
      | false =>
        simp only [stepCall, h1, h5, h6, if_true, ite_true, ite_false, Bool.false_eq_true, reduceIte]
        exact ⟨_, _, _, _, _, rfl, by simp [handled, h1, h5], by simp⟩
    · simp only [stepCall, h1, h5, h, ite_false, reduceIte]
      exact ⟨_, _, _, _, _, rfl, by simp [handled, h1, h5], by simp⟩

/-- Whenever a tool-call step continues, the chart accumulator grows by
exactly the step's ledger entry. -/
theorem stepCall_cont_charts (env : Env) (c : ToolCall) (charts : List Chart) (cc ec : Nat)
    (trs : List ToolResult) (charts1 : List Chart) (cc1 ec1 : Nat) (entry : List (List Chart))
    (h : stepCall env c charts cc ec = .cont trs charts1 cc1 ec1 entry) :
    charts1 = charts ++ entry.flatten := by
  unfold stepCall at h
  split_ifs at h
  case pos =>
    cases h
    cases h3 : (execute_code_iteration (env.runCode cc (c.input.code.getD ""))).success with
    | true =>
      by_cases h4 : (execute_code_iteration (env.runCode cc (c.input.code.getD ""))).charts = [] <;>
        simp [h3, h4]
    | false => simp [h3]
  all_goals (cases h; simp)

/-- A batch whose head is a `finalize_analysis` call finalizes at once with
the current chart accumulator and the analysis fields read off the call's
input; nothing after the head is dispatched. -/
theorem dispatchBatch_finalize_head (env : Env) (id : String) (inp : ToolInput)
    (post : List ToolCall) (charts : List Chart) (cc ec : Nat) :
    dispatchBatch env ({ id := id, name := "finalize_analysis", input := inp } :: post) charts cc ec
      = .finalized charts
          { executive_summary := inp.executive_summary.getD "Analysis completed",
            focus_analysis_findings := inp.focus_analysis_findings.getD "" } cc ec [] := by
  have h0 : dispatchBatch env ({ id := id, name := "finalize_analysis", input := inp } :: post)
      charts cc ec
      = .finalized (if charts ≠ [] then charts else [])
          { executive_summary := inp.executive_summary.getD "Analysis completed",
            focus_analysis_findings := inp.focus_analysis_findings.getD "" } cc ec [] := by
    simp [dispatchBatch, stepCall]
  rw [h0, ite_ne_nil_self]

/-- Dispatch distributes over batch concatenation: after a prefix that
completed without finalize, the suffix continues from the prefix's state, and
results and ledger entries concatenate (or the suffix's finalize wins). -/
theorem dispatchBatch_append_done (env : Env) (xs : List ToolCall) :
    ∀ (ys : List ToolCall) (charts : List Chart) (cc ec : Nat) (trs : List ToolResult)
      (c : List Chart) (cc2 ec2 : Nat) (led : List (List Chart)),
      dispatchBatch env xs charts cc ec = .done trs c cc2 ec2 led →
      (∀ trs2 c2 cc3 ec3 led2,
        dispatchBatch env ys c cc2 ec2 = .done trs2 c2 cc3 ec3 led2 →
        dispatchBatch env (xs ++ ys) charts cc ec
          = .done (trs ++ trs2) c2 cc3 ec3 (led ++ led2)) ∧
      (∀ c2 a cc3 ec3 led2,
        dispatchBatch env ys c cc2 ec2 = .finalized c2 a cc3 ec3 led2 →
        dispatchBatch env (xs ++ ys) charts cc ec
          = .finalized c2 a cc3 ec3 (led ++ led2)) := by
  induction xs with
  | nil =>
    intro ys charts cc ec trs c cc2 ec2 led h
    simp only [dispatchBatch] at h
    obtain ⟨rfl, rfl, rfl, rfl, rfl⟩ := (BatchResult.done.injEq _ _ _ _ _ _ _ _ _ _).mp h
    constructor
    · intro trs2 c2 cc3 ec3 led2 hys
      simpa using hys
    · intro c2 a cc3 ec3 led2 hys
      simpa using hys
  | cons x xs ih =>
    intro ys charts cc ec trs c cc2 ec2 led h
    simp only [dispatchBatch] at h
    cases hs : stepCall env x charts cc ec with
    | fin a => simp only [hs] at h; exact absurd h (by simp)
    | cont newTrs charts1 cc1 ec1 entry =>
      simp only [hs] at h
      cases hrec : dispatchBatch env xs charts1 cc1 ec1 with
      | finalized c' a' cc2' ec2' led' => simp only [hrec] at h; exact absurd h (by simp)
      | done trs' c' cc2' ec2' led' =>
        simp only [hrec] at h
        obtain ⟨rfl, rfl, rfl, rfl, rfl⟩ := (BatchResult.done.injEq _ _ _ _ _ _ _ _ _ _).mp h
        constructor
        · intro trs2 c2 cc3 ec3 led2 hys
          have hxs := (ih ys charts1 cc1 ec1 trs' c' cc2' ec2' led' hrec).1 trs2 c2 cc3 ec3 led2 hys
          show dispatchBatch env (x :: (xs ++ ys)) charts cc ec = _
          simp only [dispatchBatch, hs, hxs, List.append_assoc]
        · intro c2 a cc3 ec3 led2 hys
          have hxs := (ih ys charts1 cc1 ec1 trs' c' cc2' ec2' led' hrec).2 c2 a cc3 ec3 led2 hys
          show dispatchBatch env (x :: (xs ++ ys)) charts cc ec = _
          simp only [dispatchBatch, hs, hxs, List.append_assoc]

/-- Batch-level chart invariant: whatever a batch returns, its chart list is
the incoming accumulator extended, in order, by exactly the flattening of its
ledger (the charts of each successful code execution). -/
theorem dispatchBatch_chartsOf (env : Env) (calls : List ToolCall) :
    ∀ (charts : List Chart) (cc ec : Nat),
      (dispatchBatch env calls charts cc ec).chartsOf
        = charts ++ (dispatchBatch env calls charts cc ec).ledgerOf.flatten := by
  induction calls with
  | nil =>
    intro charts cc ec
    simp [dispatchBatch, BatchResult.chartsOf, BatchResult.ledgerOf]
  | cons x xs ih =>
    intro charts cc ec
    simp only [dispatchBatch]
    cases hs : stepCall env x charts cc ec with
    | fin a => simp [BatchResult.chartsOf, BatchResult.ledgerOf, ite_ne_nil_self]
    | cont newTrs charts1 cc1 ec1 entry =>
      have hch : charts1 = charts ++ entry.flatten :=
        stepCall_cont_charts env x charts cc ec newTrs charts1 cc1 ec1 entry hs
      have hrest := ih charts1 cc1 ec1
      cases hrec : dispatchBatch env xs charts1 cc1 ec1 with
      | finalized c' a' cc2' ec2' led' =>
        rw [hrec] at hrest
        simp only [BatchResult.chartsOf, BatchResult.ledgerOf] at hrest
        simp only [hs, hrec, BatchResult.chartsOf, BatchResult.ledgerOf]
        rw [hrest, hch]
        simp
      | done trs' c' cc2' ec2' led' =>
        rw [hrec] at hrest
        simp only [BatchResult.chartsOf, BatchResult.ledgerOf] at hrest
        simp only [hs, hrec, BatchResult.chartsOf, BatchResult.ledgerOf]
        rw [hrest, hch]
        simp

/-- A batch none of whose calls is `finalize_analysis` completes without
finalizing, and its tool results are exactly one per handled call, in batch
order, carrying the calls' ids. -/
theorem dispatchBatch_done_of_nofin (env : Env) (calls : List ToolCall) :
    ∀ (charts : List Chart) (cc ec : Nat),
      (∀ c ∈ calls, c.name ≠ "finalize_analysis") →
      (dispatchBatch env calls charts cc ec).isDone = true ∧
      (dispatchBatch env calls charts cc ec).toolResults.map (fun tr => tr.tool_call_id)
        = (calls.filter handled).map (fun c => c.id) := by
  induction calls with
  | nil =>
    intro charts cc ec _
    simp [dispatchBatch, BatchResult.isDone, BatchResult.toolResults]
  | cons x xs ih =>
    intro charts cc ec h
    obtain ⟨trs1, charts1, cc1, ec1, entry, hs, hids, _⟩ :=
      stepCall_cont_of_ne env x charts cc ec (h x (by simp))
    have hrest := ih charts1 cc1 ec1 (fun c hc => h c (by simp [hc]))
    cases hrec : dispatchBatch env xs charts1 cc1 ec1 with
    | finalized c' a' cc2' ec2' led' =>
      rw [hrec] at hrest
      simp [BatchResult.isDone] at hrest
    | done trs' c' cc2' ec2' led' =>
      rw [hrec] at hrest
      simp only [BatchResult.isDone, BatchResult.toolResults] at hrest
      simp only [dispatchBatch, hs, hrec, BatchResult.isDone, BatchResult.toolResults]
      refine ⟨by trivial, ?_⟩
      rw [List.map_append, hids, hrest.2, List.filter_cons]
      by_cases hx : handled x
      · simp [hx]
      · simp [hx]

/-- Unfolding of one loop pass whose batch hit `finalize_analysis`: the run
ends at once with the finalize outcome, one more iteration counted, and the
transcript untouched. -/
theorem loop_succ_finalized (env : Env) (fuel : Nat) (ms : List Message) (charts : List Chart)
    (cc ec iters : Nat) (led : List (List Chart)) (c : List Chart) (a : Analysis)
    (cc2 ec2 : Nat) (bled : List (List Chart))
    (hd : dispatchBatch env (toolCallsOf (env.completions ms)) charts cc ec
        = .finalized c a cc2 ec2 bled) :
    loop env (fuel + 1) ms charts cc ec iters led
      = { result := .success c a, iterations := iters + 1, ledger := led ++ bled,
          messages := ms } := by
  simp only [loop, hd]

/-- Unfolding of one loop pass whose batch completed without finalize: append
the two messages, then stop (no tools used) or recurse. -/
theorem loop_succ_done (env : Env) (fuel : Nat) (ms : List Message) (charts : List Chart)
    (cc ec iters : Nat) (led : List (List Chart)) (trs : List ToolResult)
    (charts1 : List Chart) (cc1 ec1 : Nat) (bled : List (List Chart))
    (hd : dispatchBatch env (toolCallsOf (env.completions ms)) charts cc ec
        = .done trs charts1 cc1 ec1 bled) :
    loop env (fuel + 1) ms charts cc ec iters led
      = if toolCallsOf (env.completions ms) = [] then
          { result := if charts1 ≠ [] then .success charts1 exhaustedAnalysis else .failed,
            iterations := iters + 1, ledger := led ++ bled,
            messages := appendedMessages ms (env.completions ms) trs }
        else
          loop env fuel (appendedMessages ms (env.completions ms) trs) charts1 cc1 ec1
            (iters + 1) (led ++ bled) := by
  simp only [loop, hd]

/-- The iteration counter grows by at most the remaining fuel. -/
theorem loop_iterations_le (env : Env) :
    ∀ (fuel : Nat) (ms : List Message) (charts : List Chart) (cc ec iters : Nat)
      (led : List (List Chart)),
      (loop env fuel ms charts cc ec iters led).iterations ≤ iters + fuel := by
  intro fuel
  induction fuel with
  | zero =>
    intro ms charts cc ec iters led
    simp [loop]
  | succ fuel ih =>
    intro ms charts cc ec iters led
    cases hd : dispatchBatch env (toolCallsOf (env.completions ms)) charts cc ec with
    | finalized c a cc2 ec2 bled =>
      rw [loop_succ_finalized env fuel ms charts cc ec iters led c a cc2 ec2 bled hd]
      simp
    | done trs charts1 cc1 ec1 bled =>
      rw [loop_succ_done env fuel ms charts cc ec iters led trs charts1 cc1 ec1 bled hd]
      by_cases htcs : toolCallsOf (env.completions ms) = []
      · simp [htcs]
      · simp only [htcs, if_false, ite_false, reduceIte]
        have := ih (appendedMessages ms (env.completions ms) trs) charts1 cc1 ec1 (iters + 1)
          (led ++ bled)
        omega

/-- When the model issues at least one tool call on every transcript and
never `finalize_analysis`, the loop consumes all its fuel. -/
theorem loop_iterations_exact (env : Env)
    (H : ∀ ms, toolCallsOf (env.completions ms) ≠ [] ∧
        ∀ c ∈ toolCallsOf (env.completions ms), c.name ≠ "finalize_analysis") :
    ∀ (fuel : Nat) (ms : List Message) (charts : List Chart) (cc ec iters : Nat)
      (led : List (List Chart)),
      (loop env fuel ms charts cc ec iters led).iterations = iters + fuel := by
  intro fuel
  induction fuel with
  | zero =>
    intro ms charts cc ec iters led
    simp [loop]
  | succ fuel ih =>
    intro ms charts cc ec iters led
    have hdone := dispatchBatch_done_of_nofin env (toolCallsOf (env.completions ms))
      charts cc ec (H ms).2
    cases hd : dispatchBatch env (toolCallsOf (env.completions ms)) charts cc ec with
    | finalized c a cc2 ec2 bled =>
      rw [hd] at hdone
      simp [BatchResult.isDone] at hdone
    | done trs charts1 cc1 ec1 bled =>
      rw [loop_succ_done env fuel ms charts cc ec iters led trs charts1 cc1 ec1 bled hd]
      simp only [(H ms).1, if_false, ite_false, reduceIte]
      rw [ih]
      omega

/-- Ledger invariant of the loop: a successful result's chart list is exactly
the flattening of the final ledger. -/
theorem loop_result_charts (env : Env) :
    ∀ (fuel : Nat) (ms : List Message) (charts : List Chart) (cc ec iters : Nat)
      (led : List (List Chart)) (cs : List Chart) (a : Analysis),
      charts = led.flatten →
      (loop env fuel ms charts cc ec iters led).result = .success cs a →
      cs = (loop env fuel ms charts cc ec iters led).ledger.flatten := by
  intro fuel
  induction fuel with
  | zero =>
    intro ms charts cc ec iters led cs a hinv hres
    simp only [loop] at hres ⊢
    by_cases hch : charts = []
    · simp [hch] at hres
    · simp only [hch, ne_eq, not_false_iff, if_true, ite_true, reduceIte] at hres
      obtain ⟨rfl, rfl⟩ := (SessionResult.success.injEq _ _ _ _).mp hres.symm
      exact hinv
  | succ fuel ih =>
    intro ms charts cc ec iters led cs a hinv hres
    have hinvariant := dispatchBatch_chartsOf env (toolCallsOf (env.completions ms)) charts cc ec
    cases hd : dispatchBatch env (toolCallsOf (env.completions ms)) charts cc ec with
    | finalized c a' cc2 ec2 bled =>
      rw [loop_succ_finalized env fuel ms charts cc ec iters led c a' cc2 ec2 bled hd] at hres ⊢
      rw [hd] at hinvariant
      simp only [BatchResult.chartsOf, BatchResult.ledgerOf] at hinvariant
      simp only at hres
      obtain ⟨rfl, rfl⟩ := (SessionResult.success.injEq _ _ _ _).mp hres
      simp [hinvariant, hinv]
    | done trs charts1 cc1 ec1 bled =>
      rw [loop_succ_done env fuel ms charts cc ec iters led trs charts1 cc1 ec1 bled hd] at hres ⊢
      rw [hd] at hinvariant
      simp only [BatchResult.chartsOf, BatchResult.ledgerOf] at hinvariant
      by_cases htcs : toolCallsOf (env.completions ms) = []
      · simp only [htcs, if_true, ite_true, reduceIte] at hres ⊢
        by_cases hch1 : charts1 = []
        · simp [hch1] at hres
        · simp only [hch1, ne_eq, not_false_iff, if_true, ite_true, reduceIte] at hres
          obtain ⟨rfl, rfl⟩ := (SessionResult.success.injEq _ _ _ _).mp hres.symm
          simp [hinvariant, hinv]
      · simp only [htcs, if_false, ite_false, reduceIte] at hres ⊢
        exact ih (appendedMessages ms (env.completions ms) trs) charts1 cc1 ec1 (iters + 1)
          (led ++ bled) cs a (by simp [hinvariant, hinv]) hres

/-- The loop only ever appends to the transcript. -/
theorem loop_messages_extend (env : Env) :
    ∀ (fuel : Nat) (ms : List Message) (charts : List Chart) (cc ec iters : Nat)
      (led : List (List Chart)),
      ∃ tail, (loop env fuel ms charts cc ec iters led).messages = ms ++ tail := by
  intro fuel
  induction fuel with
  | zero =>
    intro ms charts cc ec iters led
    exact ⟨[], by simp [loop]⟩
  | succ fuel ih =>
    intro ms charts cc ec iters led
    cases hd : dispatchBatch env (toolCallsOf (env.completions ms)) charts cc ec with
    | finalized c a cc2 ec2 bled =>
      rw [loop_succ_finalized env fuel ms charts cc ec iters led c a cc2 ec2 bled hd]
      exact ⟨[], by simp⟩
    | done trs charts1 cc1 ec1 bled =>
      rw [loop_succ_done env fuel ms charts cc ec iters led trs charts1 cc1 ec1 bled hd]
      by_cases htcs : toolCallsOf (env.completions ms) = []
      · simp only [htcs, if_true, ite_true, reduceIte]
        exact ⟨(if assistantContent (env.completions ms) ≠ []
                then [({ role := "assistant",
                         content := assistantContent (env.completions ms) } : Message)]
                else []) ++ (if trs ≠ [] then [toolResultsMessage trs] else []),
          by simp [appendedMessages, List.append_assoc]⟩
      · simp only [htcs, if_false, ite_false, reduceIte]
        obtain ⟨t2, ht2⟩ := ih (appendedMessages ms (env.completions ms) trs) charts1 cc1 ec1
          (iters + 1) (led ++ bled)
        refine ⟨((if assistantContent (env.completions ms) ≠ []
                  then [({ role := "assistant",
                           content := assistantContent (env.completions ms) } : Message)]
                  else []) ++ (if trs ≠ [] then [toolResultsMessage trs] else [])) ++ t2, ?_⟩
        rw [ht2]
        simp [appendedMessages, List.append_assoc]

/-- Tool-use message blocks built from tool calls project back to the same
tool calls, in the same order. -/
theorem filterMap_msgToolUse_map (l : List ToolCall) :
    (l.map (fun c => MsgBlock.toolUse c.id c.name c.input)).filterMap msgToolUse = l := by
  induction l with
  | nil => simp
  | cons x xs ih => simp [msgToolUse, ih]

/-- Tool-use message blocks contribute no text. -/
theorem filterMap_msgText_map (l : List ToolCall) :
    (l.map (fun c => MsgBlock.toolUse c.id c.name c.input)).filterMap msgText = [] := by
  induction l with
  | nil => simp
  | cons x xs ih => simp [msgText, ih]

/-- Generalized per-execution titling invariant of the chart-collection
fold: if the accumulator is titled `Chart 1 … Chart n`, so is the fold
result. -/
theorem foldl_chartStep_titles (rs : List E2BResultItem) :
    ∀ (acc : List Chart), acc.map Chart.title = chartTitles acc.length →
      (rs.foldl chartStep acc).map Chart.title = chartTitles (rs.foldl chartStep acc).length := by
  induction rs with
  | nil => intro acc h; simpa using h
  | cons r rs ih =>
    intro acc h
    simp only [List.foldl_cons]
    refine ih (chartStep acc r) ?_
    unfold chartStep
    by_cases hp : optStrTruthy r.png
    · simp only [hp, if_true, ite_true, reduceIte, List.map_append, List.length_append,
        List.map_cons, List.map_nil, List.length_cons, List.length_nil]
      rw [h]
      show chartTitles acc.length ++ ["Chart " ++ toString (acc.length + 1)]
          = chartTitles (acc.length + (0 + 1))
      simp [chartTitles]
    · simp [hp, h]

/-- The chart-collection fold adds one chart per truthy png. -/
theorem foldl_chartStep_length (rs : List E2BResultItem) :
    ∀ (acc : List Chart),
      (rs.foldl chartStep acc).length
        = acc.length + rs.countP (fun r => optStrTruthy r.png) := by
  induction rs with
  | nil => intro acc; simp
  | cons r rs ih =>
    intro acc
    simp only [List.foldl_cons, List.countP_cons]
    rw [ih (chartStep acc r)]
    unfold chartStep
    by_cases hp : optStrTruthy r.png
    · simp [hp]
      omega
    · simp [hp]

/-- C1: if any dispatched action in an iteration's batch is
`finalize_analysis` (the spec's `finalize`), the run stops immediately: the
batch finalizes at the first such call with the chart snapshot and analysis
fields at that point, the calls after it are never dispatched (the adapter
call counters and the ledger are those of the prefix), no further iteration
runs (the loop returns with exactly one more iteration counted, for any
remaining fuel), and the session returns the finalize-derived outcome. -/
theorem finalize_short_circuits_batch_and_loop
    (env : Env) (fuel : Nat) (messages : List Message) (charts : List Chart)
    (cc ec iters : Nat) (led : List (List Chart))
    (pre post : List ToolCall) (id : String) (inp : ToolInput)
    (trs : List ToolResult) (charts1 : List Chart) (cc1 ec1 : Nat) (bled : List (List Chart))
    (hcalls : toolCallsOf (env.completions messages)
        = pre ++ { id := id, name := "finalize_analysis", input := inp } :: post)
    (hpre : dispatchBatch env pre charts cc ec = .done trs charts1 cc1 ec1 bled) :
    dispatchBatch env (toolCallsOf (env.completions messages)) charts cc ec
      = .finalized charts1
          { executive_summary := inp.executive_summary.getD "Analysis completed",
            focus_analysis_findings := inp.focus_analysis_findings.getD "" } cc1 ec1 bled ∧
    loop env (fuel + 1) messages charts cc ec iters led
      = { result := .success charts1
            { executive_summary := inp.executive_summary.getD "Analysis completed",
              focus_analysis_findings := inp.focus_analysis_findings.getD "" },
          iterations := iters + 1, ledger := led ++ bled, messages := messages } := by
  have hfin := dispatchBatch_finalize_head env id inp post charts1 cc1 ec1
  have hfull : dispatchBatch env (toolCallsOf (env.completions messages)) charts cc ec
      = .finalized charts1
          { executive_summary := inp.executive_summary.getD "Analysis completed",
            focus_analysis_findings := inp.focus_analysis_findings.getD "" } cc1 ec1 bled := by
    rw [hcalls]
    have happ := (dispatchBatch_append_done env pre
        ({ id := id, name := "finalize_analysis", input := inp } :: post) charts cc ec
        trs charts1 cc1 ec1 bled hpre).2 charts1
        { executive_summary := inp.executive_summary.getD "Analysis completed",
          focus_analysis_findings := inp.focus_analysis_findings.getD "" } cc1 ec1 [] hfin
    simpa using happ
  exact ⟨hfull,
    loop_succ_finalized env fuel messages charts cc ec iters led charts1 _ cc1 ec1 bled hfull⟩

/-- Witness for C1 at a concrete batch `search, finalize, code`: the batch
finalizes with summary `"S"`, the trailing code call is never dispatched and
the loop stops after this iteration. -/
theorem finalize_short_circuits_concrete :
    dispatchBatch envFin (toolCallsOf (envFin.completions [seedMessage "p"])) [] 0 0
      = .finalized [] { executive_summary := "S", focus_analysis_findings := "" } 0 1 [] ∧
    loop envFin (4 + 1) [seedMessage "p"] [] 0 0 0 []
      = { result := .success [] { executive_summary := "S", focus_analysis_findings := "" },
          iterations := 0 + 1, ledger := [] ++ [], messages := [seedMessage "p"] } :=
  finalize_short_circuits_batch_and_loop envFin 4 [seedMessage "p"] [] 0 0 0 []
    [{ id := "a", name := "search_health_insights", input := queryInput }]
    [{ id := "c", name := "run_python_code", input := codeInput }]
    "b" summaryInput
    [{ tool_call_id := "a", content := "Health Insights Search Results:\n\nR" }] [] 0 1 []
    (by decide) (by decide)

/-- C2 counterexample: a batch consisting of one request with an unrecognized
action name produces zero tool results — the request does not receive a
failure ActionResult (nor any result), refuting the claim that every request
receives exactly one ActionResult. -/
theorem unknown_action_gets_no_result :
    (dispatchBatch trivialEnv [{ id := "u1", name := "bogus_tool", input := noInput }]
        [] 0 0).toolResults = [] ∧
    (dispatchBatch trivialEnv [{ id := "u1", name := "bogus_tool", input := noInput }]
        [] 0 0).toolResults.length ≠ 1 := by
  decide

/-- C2 (amended): in an iteration whose batch has no `finalize_analysis`, the
batch completes without crashing, and the tool results are exactly one per
handled request (any `search_health_insights`, or `run_python_code` with
truthy code), carrying the requests' ids in order; requests with an
unrecognized name or `run_python_code` without code are skipped silently,
receiving no result. -/
theorem handled_requests_get_exactly_one_result
    (env : Env) (calls : List ToolCall) (charts : List Chart) (cc ec : Nat)
    (hnofin : ∀ c ∈ calls, c.name ≠ "finalize_analysis") :
    (dispatchBatch env calls charts cc ec).isDone = true ∧
    (dispatchBatch env calls charts cc ec).toolResults.map (fun tr => tr.tool_call_id)
      = (calls.filter handled).map (fun c => c.id) :=
  dispatchBatch_done_of_nofin env calls charts cc ec hnofin

/-- Witness for C2 (amended) on a batch of one search call followed by one
unrecognized call: exactly the search call receives a result. -/
theorem handled_requests_concrete :
    (dispatchBatch trivialEnv
        [{ id := "s1", name := "search_health_insights", input := queryInput },
         { id := "u1", name := "bogus_tool", input := noInput }] [] 0 0).isDone = true ∧
    (dispatchBatch trivialEnv
        [{ id := "s1", name := "search_health_insights", input := queryInput },
         { id := "u1", name := "bogus_tool", input := noInput }] [] 0 0).toolResults.map
          (fun tr => tr.tool_call_id)
      = (([{ id := "s1", name := "search_health_insights", input := queryInput },
           { id := "u1", name := "bogus_tool", input := noInput }] : List ToolCall).filter
            handled).map (fun c => c.id) :=
  handled_requests_get_exactly_one_result trivialEnv
    [{ id := "s1", name := "search_health_insights", input := queryInput },
     { id := "u1", name := "bogus_tool", input := noInput }] [] 0 0 (by decide)

/-- C3 counterexample: an `execute_code` request with absent code yields a
batch with zero tool results — no failure ActionResult is produced,
refuting the claim's first half (the adapter-call count 0 is visible in the
`.done` counters). -/
theorem missing_code_yields_no_result :
    dispatchBatch trivialEnv [{ id := "t1", name := "run_python_code", input := noInput }] [] 0 0
      = .done [] [] 0 0 [] ∧
    (dispatchBatch trivialEnv [{ id := "t1", name := "run_python_code", input := noInput }]
        [] 0 0).toolResults.length ≠ 1 := by
  decide

/-- C3 (amended): a `run_python_code` request whose code is empty or absent
makes zero calls to the code-execution adapter and produces no ActionResult
at all — dispatching the batch with it is the same as dispatching the batch
without it, and its step leaves results, charts and call counters untouched. -/
theorem missing_code_skips_adapter
    (env : Env) (call : ToolCall) (rest : List ToolCall) (charts : List Chart) (cc ec : Nat)
    (hname : call.name = "run_python_code")
    (hcode : optStrTruthy call.input.code = false) :
    stepCall env call charts cc ec = .cont [] charts cc ec [] ∧
    dispatchBatch env (call :: rest) charts cc ec = dispatchBatch env rest charts cc ec := by
  have h1 : stepCall env call charts cc ec = .cont [] charts cc ec [] := by
    simp [stepCall, hname, hcode]
  refine ⟨h1, ?_⟩
  simp only [dispatchBatch, h1]
  cases hrec : dispatchBatch env rest charts cc ec <;> simp

/-- Witness for C3 (amended): a codeless `run_python_code` call before a
search call changes nothing. -/
theorem missing_code_skips_adapter_concrete :
    stepCall trivialEnv { id := "t1", name := "run_python_code", input := noInput } [] 0 0
      = .cont [] [] 0 0 [] ∧
    dispatchBatch trivialEnv
        ({ id := "t1", name := "run_python_code", input := noInput }
          :: [{ id := "s1", name := "search_health_insights", input := queryInput }]) [] 0 0
      = dispatchBatch trivialEnv
          [{ id := "s1", name := "search_health_insights", input := queryInput }] [] 0 0 :=
  missing_code_skips_adapter trivialEnv
    { id := "t1", name := "run_python_code", input := noInput }
    [{ id := "s1", name := "search_health_insights", input := queryInput }] [] 0 0
    (by decide) (by decide)

/-- C4: the iteration counter of any session never exceeds the configured
maximum of 20; and a session whose model issues at least one action on every
transcript and never issues `finalize_analysis` terminates at exactly 20
iterations. -/
theorem iteration_cap_holds (env env2 : Env) (p p2 : String)
    (H : ∀ ms, toolCallsOf (env2.completions ms) ≠ [] ∧
        ∀ c ∈ toolCallsOf (env2.completions ms), c.name ≠ "finalize_analysis") :
    (generate_analysis_iteratively env p).iterations ≤ 20 ∧
    (generate_analysis_iteratively env2 p2).iterations = 20 := by
  constructor
  · have h := loop_iterations_le env max_iterations [seedMessage p] [] 0 0 0 []
    simpa [generate_analysis_iteratively, max_iterations] using h
  · have h := loop_iterations_exact env2 H max_iterations [seedMessage p2] [] 0 0 0 []
    simpa [generate_analysis_iteratively, max_iterations] using h

/-- Witness for C4: a model that always issues one unrecognized tool call
keeps every iteration action-bearing and finalize-free, so the session runs
exactly 20 iterations. -/
theorem iteration_cap_concrete :
    (generate_analysis_iteratively envBogus "p").iterations ≤ 20 ∧
    (generate_analysis_iteratively envBogus "p").iterations = 20 :=
  iteration_cap_holds envBogus envBogus "p" "p"
    (fun ms =>
      ⟨by show ([{ id := "t", name := "bogus_tool", input := noInput }] : List ToolCall) ≠ []
          decide,
       by show ∀ c ∈ ([{ id := "t", name := "bogus_tool", input := noInput }] : List ToolCall),
              c.name ≠ "finalize_analysis"
          decide⟩)

/-- C5: whenever a session returns a success outcome, its chart list is
exactly the in-order concatenation of the ledger — the charts produced by
each successful `execute_code` execution, accumulated across iterations with
no pruning, deduplication or reordering — and hence its length is the sum,
over all successful executions, of the number of image artifacts each
produced. -/
theorem artifacts_equal_ledger_flatten
    (env : Env) (analysis_prompt : String) (cs : List Chart) (a : Analysis)
    (h : (generate_analysis_iteratively env analysis_prompt).result = .success cs a) :
    cs = (generate_analysis_iteratively env analysis_prompt).ledger.flatten ∧
    cs.length
      = ((generate_analysis_iteratively env analysis_prompt).ledger.map List.length).sum := by
  have h1 : cs = (generate_analysis_iteratively env analysis_prompt).ledger.flatten :=
    loop_result_charts env max_iterations [seedMessage analysis_prompt] [] 0 0 0 [] cs a
      (by simp) h
  refine ⟨h1, ?_⟩
  rw [h1]
  simp

/-- Witness for C5: one successful execution producing one chart, then
finalize; the outcome's chart list is the ledger's flattening and counts
match. -/
theorem artifacts_equal_ledger_concrete :
    [chartOne] = (generate_analysis_iteratively envOneChart "p").ledger.flatten ∧
    [chartOne].length
      = ((generate_analysis_iteratively envOneChart "p").ledger.map List.length).sum :=
  artifacts_equal_ledger_flatten envOneChart "p" [chartOne]
    { executive_summary := "S", focus_analysis_findings := "" } (by decide)

/-- C6: a `finalize_analysis` request carrying an executive summary and no
`focus_analysis_findings` yields a success outcome whose findings are the
given summary (or the default `Analysis completed` when the summary is
omitted, via `getD`) with empty focus findings, and whose artifacts are
exactly the accumulator's pre-finalize snapshot, unmodified; the transcript
is left untouched. -/
theorem finalize_outcome_roundtrip
    (env : Env) (fuel : Nat) (ms : List Message) (charts : List Chart)
    (cc ec iters : Nat) (led : List (List Chart)) (id : String) (inp : ToolInput)
    (hcomp : toolCallsOf (env.completions ms)
        = [{ id := id, name := "finalize_analysis", input := inp }])
    (hfocus : inp.focus_analysis_findings = none) :
    loop env (fuel + 1) ms charts cc ec iters led
      = { result := .success charts
            { executive_summary := inp.executive_summary.getD "Analysis completed",
              focus_analysis_findings := "" },
          iterations := iters + 1, ledger := led, messages := ms } := by
  have hd : dispatchBatch env (toolCallsOf (env.completions ms)) charts cc ec
      = .finalized charts
          { executive_summary := inp.executive_summary.getD "Analysis completed",
            focus_analysis_findings := "" } cc ec [] := by
    rw [hcomp]
    have hh := dispatchBatch_finalize_head env id inp [] charts cc ec
    simpa [hfocus] using hh
  have hl := loop_succ_finalized env fuel ms charts cc ec iters led charts _ cc ec [] hd
  simpa using hl

/-- Witness for C6: finalize with summary `"X"`, focus omitted, pre-finalize
snapshot `[chartOne]`. -/
theorem finalize_outcome_concrete :
    loop envFinalizeX (3 + 1) [seedMessage "p"] [chartOne] 0 0 0 []
      = { result := .success [chartOne]
            { executive_summary := "X", focus_analysis_findings := "" },
          iterations := 0 + 1, ledger := [], messages := [seedMessage "p"] } :=
  finalize_outcome_roundtrip envFinalizeX 3 [seedMessage "p"] [chartOne] 0 0 0 [] "f"
    summaryXInput (by decide) (by decide)

/-- C7: a session whose first completion has zero tool calls terminates after
exactly one iteration with the failure sentinel (the accumulator is
necessarily empty then); and in general a pass with no tool calls
(idle-stop), like fuel exhaustion, yields a success outcome with the
synthesized generic summary exactly when the accumulated charts are
non-empty, and the failure sentinel otherwise. -/
theorem idle_stop_and_exhaustion_outcomes
    (env : Env) (analysis_prompt : String) (ms : List Message) (charts : List Chart)
    (cc ec iters : Nat) (led : List (List Chart)) (fuel : Nat)
    (h1 : toolCallsOf (env.completions [seedMessage analysis_prompt]) = [])
    (h2 : toolCallsOf (env.completions ms) = []) :
    ((generate_analysis_iteratively env analysis_prompt).result = .failed ∧
      (generate_analysis_iteratively env analysis_prompt).iterations = 1) ∧
    ((loop env (fuel + 1) ms charts cc ec iters led).result
        = if charts ≠ [] then .success charts exhaustedAnalysis else .failed) ∧
    ((loop env 0 ms charts cc ec iters led).result
        = if charts ≠ [] then .success charts exhaustedAnalysis else .failed) := by
  have hstep : ∀ (ms' : List Message) (charts' : List Chart) (cc' ec' iters' : Nat)
      (led' : List (List Chart)) (fuel' : Nat),
      toolCallsOf (env.completions ms') = [] →
      loop env (fuel' + 1) ms' charts' cc' ec' iters' led'
        = { result := if charts' ≠ [] then .success charts' exhaustedAnalysis else .failed,
            iterations := iters' + 1, ledger := led',
            messages := appendedMessages ms' (env.completions ms') [] } := by
    intro ms' charts' cc' ec' iters' led' fuel' h
    have hd : dispatchBatch env (toolCallsOf (env.completions ms')) charts' cc' ec'
        = .done [] charts' cc' ec' [] := by
      rw [h]; simp [dispatchBatch]
    rw [loop_succ_done env fuel' ms' charts' cc' ec' iters' led' [] charts' cc' ec' [] hd]
    simp [h]
  have hg : generate_analysis_iteratively env analysis_prompt
      = loop env (19 + 1) [seedMessage analysis_prompt] [] 0 0 0 [] := rfl
  refine ⟨?_, ?_, ?_⟩
  · rw [hg, hstep [seedMessage analysis_prompt] [] 0 0 0 [] 19 h1]
    simp
  · rw [hstep ms charts cc ec iters led fuel h2]
  · simp [loop]

/-- Witness for C7: a text-only model gives the failure sentinel in one
iteration; with a non-empty accumulator the idle and exhausted endings give
the generic-summary success. -/
theorem idle_stop_concrete :
    ((generate_analysis_iteratively envIdle "p").result = .failed ∧
      (generate_analysis_iteratively envIdle "p").iterations = 1) ∧
    ((loop envIdle (2 + 1) [seedMessage "q"] [chartOne] 0 0 0 []).result
        = if [chartOne] ≠ [] then .success [chartOne] exhaustedAnalysis else .failed) ∧
    ((loop envIdle 0 [seedMessage "q"] [chartOne] 0 0 0 []).result
        = if [chartOne] ≠ [] then .success [chartOne] exhaustedAnalysis else .failed) :=
  idle_stop_and_exhaustion_outcomes envIdle "p" [seedMessage "q"] [chartOne] 0 0 0 [] 2
    (by decide) (by decide)

/-- C8: for a `search_health_insights` request with a present (truthy)
`query`, an exception from the search call is caught and rendered as a
failure text carrying the exception message, while a successful response is
embedded verbatim; either way the dispatcher wraps the adapter's text into
exactly one ActionResult and the batch completes without finalizing, so the
session continues. -/
theorem search_error_handling
    (query context e content : String) (callRaises callOk : String → ExaCall)
    (env : Env) (id : String) (inp : ToolInput) (charts : List Chart) (cc ec : Nat)
    (hq : query ≠ "")
    (hraise : callRaises (enhanceQuery query context) = .raises e)
    (hok : callOk (enhanceQuery query context) = .returns (some content))
    (hqy : inp.query = some query) :
    search_health_insights query context callRaises = "Search error: " ++ e ∧
    search_health_insights query context callOk = content ∧
    dispatchBatch env [{ id := id, name := "search_health_insights", input := inp }] charts cc ec
      = .done [{ tool_call_id := id,
                 content := "Health Insights Search Results:\n\n"
                   ++ search_health_insights query (inp.context.getD "") (env.exa ec) }]
          charts cc (ec + 1) [] := by
  refine ⟨?_, ?_, ?_⟩
  · simp [search_health_insights, hraise]
  · simp [search_health_insights, hok]
  · simp [dispatchBatch, stepCall, hqy, optStrTruthy, hq]

/-- Witness for C8: the raising call renders `Search error: boom`, the
successful call returns its content verbatim, and the single-call batch
completes with one wrapped result. -/
theorem search_error_handling_concrete :
    search_health_insights "q" "" (fun _ => ExaCall.raises "boom") = "Search error: " ++ "boom" ∧
    search_health_insights "q" "" (fun _ => ExaCall.returns (some "advice")) = "advice" ∧
    dispatchBatch envSearchBoom
        [{ id := "s1", name := "search_health_insights", input := queryInput }] [] 0 0
      = .done [{ tool_call_id := "s1",
                 content := "Health Insights Search Results:\n\n"
                   ++ search_health_insights "q" (queryInput.context.getD "")
                        (envSearchBoom.exa 0) }]
          [] 0 (0 + 1) [] :=
  search_error_handling "q" "" "boom" "advice" (fun _ => ExaCall.raises "boom")
    (fun _ => ExaCall.returns (some "advice")) envSearchBoom "s1" queryInput [] 0 0
    (by decide) rfl rfl rfl

/-- C9 counterexample: with a first completion whose blocks are a `tool_use`
followed by a text block, the assistant message appended to the transcript
holds the text block first and the tool-use block second — the completion's
original block order is not preserved. -/
theorem assistant_block_order_changed :
    (generate_analysis_iteratively envOrder "p").messages
      = [seedMessage "p",
         { role := "assistant",
           content := [MsgBlock.text "T", MsgBlock.toolUse "t" "run_python_code" noInput] }] ∧
    [MsgBlock.text "T", MsgBlock.toolUse "t" "run_python_code" noInput]
      ≠ [MsgBlock.toolUse "t" "run_python_code" noInput, MsgBlock.text "T"] := by
  decide

/-- C9 (amended): the assistant message contains the completion's tool-use
blocks with their relative order preserved, preceded by a single merged text
block (the newline-join of all text blocks) when any text exists — not the
original interleaved order — and the transcript grows append-only (the loop
passes the full current transcript to the completion service each pass by
construction). -/
theorem assistant_message_structure (env : Env) (r : Completion)
    (fuel : Nat) (ms : List Message) (charts : List Chart) (cc ec iters : Nat)
    (led : List (List Chart)) :
    (assistantContent r).filterMap msgToolUse = r.content.filterMap cbToolUse ∧
    (assistantContent r).filterMap msgText
      = (if textsOf r ≠ [] then [String.intercalate "\n" (textsOf r)] else []) ∧
    ∃ tail, (loop env fuel ms charts cc ec iters led).messages = ms ++ tail := by
  refine ⟨?_, ?_, loop_messages_extend env fuel ms charts cc ec iters led⟩
  · unfold assistantContent
    rw [List.filterMap_append, filterMap_msgToolUse_map]
    by_cases ht : textsOf r ≠ []
    · simp [ht, msgToolUse, toolCallsOf]
    · simp [ht, toolCallsOf]
  · unfold assistantContent
    rw [List.filterMap_append, filterMap_msgText_map]
    by_cases ht : textsOf r ≠ []
    · simp [ht, msgText]
    · simp [ht]

/-- C10: within one execution, charts are titled `Chart 1 … Chart k` with `k`
the number of truthy png results, numbered relative to that execution only;
consequently two chart-producing executions in a session yield duplicate
titles (two distinct artifacts both titled `Chart 1`), so titles are not
session-unique identifiers. -/
theorem chart_titles_per_execution (results : List E2BResultItem) :
    (collectCharts results).map Chart.title = chartTitles (collectCharts results).length ∧
    (collectCharts results).length = results.countP (fun r => optStrTruthy r.png) ∧
    ((dispatchBatch envPng
        [{ id := "a", name := "run_python_code", input := codeInput },
         { id := "b", name := "run_python_code", input := codeInput }]
        [] 0 0).chartsOf.map Chart.title
      = ["Chart 1", "Chart 1"]) := by
  refine ⟨?_, ?_, ?_⟩
  · exact foldl_chartStep_titles results [] (by simp [chartTitles])
  · simpa using foldl_chartStep_length results []
  · decide

end QSelf
